import Mathlib

/-!
Verification development for the neubase repository (`src/neubase/neubase.py`).

The repository wraps an SQLite store with two classes: `NEUBase` (the catalog,
holding the system tables `__meta__` and `__columns__`) and `NEUTable` (one
logical dataset with a key/value metadata record and a per-column metadata
table).  This file gives a shallow embedding of the data model and of the
operations the claims concern, and settles the claims as theorems.

Modelling conventions:
* Python scalar values, rows, and cells are modelled by `PyVal`
  (strings, integers, booleans, `None`, lists, dicts).
* Python's `json.dumps` / `json.loads` (standard-library collaborators of
  `convert_meta_values_to_json` / `convert_meta_values_from_json`) are
  modelled by `dumps` / `loads` below, over the value universe `PyVal`:
  the exact textual format `json.dumps` emits with its default separators,
  and a parser for that format.  Non-string dict keys are stringified by
  `dumps`, exactly as `json.dumps` does.
* Pandas DataFrames are modelled positionally: a list of column names, a
  list of index-level names, the row labels of the (single-level) index,
  and the cell grid.  The SQLite store is a list of named tables whose
  rows are association lists from column name to cell.
-/

/-- A dict key in the Python value universe: a string or an integer
(`json.dumps` stringifies integer keys, which claim C5 is about). -/
inductive JKey where
  | kstr : String → JKey
  | kint : Int → JKey
deriving DecidableEq, Repr

/-- The universe of Python values handled by the metadata machinery of
`neubase.py`: strings, integers, booleans, `None`, lists and dicts. -/
inductive PyVal where
  | vstr : String → PyVal
  | vint : Int → PyVal
  | vbool : Bool → PyVal
  | vnone : PyVal
  | vlist : List PyVal → PyVal
  | vdict : List (JKey × PyVal) → PyVal
deriving Repr

/-- Boolean equality on `PyVal` (structural). -/
def PyVal.beq : PyVal → PyVal → Bool
  | .vstr a, .vstr b => a == b
  | .vint a, .vint b => a == b
  | .vbool a, .vbool b => a == b
  | .vnone, .vnone => true
  | .vlist a, .vlist b => beqList a b
  | .vdict a, .vdict b => beqEntries a b
  | _, _ => false
where
  beqList : List PyVal → List PyVal → Bool
    | [], [] => true
    | x :: xs, y :: ys => PyVal.beq x y && beqList xs ys
    | _, _ => false
  beqEntries : List (JKey × PyVal) → List (JKey × PyVal) → Bool
    | [], [] => true
    | (k, v) :: xs, (l, w) :: ys => k == l && PyVal.beq v w && beqEntries xs ys
    | _, _ => false

mutual
theorem PyVal.beq_iff : ∀ a b : PyVal, PyVal.beq a b = true ↔ a = b
  | .vstr a, b => by cases b <;> simp [PyVal.beq]
  | .vint a, b => by cases b <;> simp [PyVal.beq]
  | .vbool a, b => by cases b <;> simp [PyVal.beq]
  | .vnone, b => by cases b <;> simp [PyVal.beq]
  | .vlist a, b => by
      cases b <;> simp [PyVal.beq]
      exact PyVal.beqList_iff a _
  | .vdict a, b => by
      cases b <;> simp [PyVal.beq]
      exact PyVal.beqEntries_iff a _

theorem PyVal.beqList_iff : ∀ a b : List PyVal, PyVal.beq.beqList a b = true ↔ a = b
  | [], b => by cases b <;> simp [PyVal.beq.beqList]
  | x :: xs, b => by
      cases b with
      | nil => simp [PyVal.beq.beqList]
      | cons y ys =>
          simp only [PyVal.beq.beqList, Bool.and_eq_true, List.cons.injEq]
          rw [PyVal.beq_iff x y, PyVal.beqList_iff xs ys]

theorem PyVal.beqEntries_iff :
    ∀ a b : List (JKey × PyVal), PyVal.beq.beqEntries a b = true ↔ a = b
  | [], b => by cases b <;> simp [PyVal.beq.beqEntries]
  | (k, v) :: xs, b => by
      cases b with
      | nil => simp [PyVal.beq.beqEntries]
      | cons p ys =>
          obtain ⟨l, w⟩ := p
          simp only [PyVal.beq.beqEntries, Bool.and_eq_true, List.cons.injEq, Prod.mk.injEq,
            beq_iff_eq]
          rw [PyVal.beq_iff v w, PyVal.beqEntries_iff xs ys]
end

instance : DecidableEq PyVal := fun a b =>
  decidable_of_iff (PyVal.beq a b = true) (PyVal.beq_iff a b)

/-! ### Decimal digits, modelling Python `str(int)` -/

/-- The character for a decimal digit value. -/
def digitChar (d : Nat) : Char := Char.ofNat (48 + d)

/-- Decimal digit characters, most significant first (fuel-indexed so that
the definition is structurally recursive and kernel-evaluable). -/
def natDigitsAux : Nat → Nat → List Char
  | 0, _ => []
  | fuel + 1, n =>
    if n < 10 then [digitChar n]
    else natDigitsAux fuel (n / 10) ++ [digitChar (n % 10)]

/-- Decimal digit characters of a natural number, most significant first. -/
def natDigits (n : Nat) : List Char := natDigitsAux (n + 1) n

/-- The characters of Python `str(n)` for an `int` value `n`. -/
def intChars (n : Int) : List Char :=
  if n < 0 then '-' :: natDigits n.natAbs else natDigits n.toNat

def isDigitChar (c : Char) : Bool := 48 ≤ c.toNat && c.toNat ≤ 57

/-- Value of a list of decimal digit characters, most significant first. -/
def digitsVal (cs : List Char) : Nat := cs.foldl (fun a c => a * 10 + (c.toNat - 48)) 0

theorem digitChar_isDigit (d : Nat) (h : d < 10) : isDigitChar (digitChar d) = true := by
  interval_cases d <;> decide

theorem digitChar_toNat (d : Nat) (h : d < 10) : (digitChar d).toNat = 48 + d := by
  interval_cases d <;> decide

theorem natDigits_ne_nil (n : Nat) : natDigits n ≠ [] := by
  rw [natDigits, natDigitsAux]
  split <;> simp

theorem natDigitsAux_digits (fuel : Nat) :
    ∀ n, n < fuel → ∀ c ∈ natDigitsAux fuel n, isDigitChar c = true := by
  induction fuel with
  | zero => omega
  | succ f ih =>
    intro n hn
    rw [natDigitsAux]
    split
    · next h10 =>
      intro c hc
      rw [List.mem_singleton] at hc
      subst hc
      exact digitChar_isDigit n (by omega)
    · next h10 =>
      intro c hc
      rw [List.mem_append] at hc
      rcases hc with hc | hc
      · exact ih (n / 10) (by omega) c hc
      · rw [List.mem_singleton] at hc
        subst hc
        exact digitChar_isDigit (n % 10) (Nat.mod_lt _ (by omega))

theorem natDigits_digits (n : Nat) : ∀ c ∈ natDigits n, isDigitChar c = true :=
  natDigitsAux_digits (n + 1) n (by omega)

theorem digitsVal_append_one (cs : List Char) (c : Char) :
    digitsVal (cs ++ [c]) = digitsVal cs * 10 + (c.toNat - 48) := by
  simp [digitsVal, List.foldl_append]

theorem natDigitsAux_val (fuel : Nat) :
    ∀ n, n < fuel → digitsVal (natDigitsAux fuel n) = n := by
  induction fuel with
  | zero => omega
  | succ f ih =>
    intro n hn
    rw [natDigitsAux]
    split
    · next h10 =>
      simp [digitsVal, digitChar_toNat n h10]
    · next h10 =>
      rw [digitsVal_append_one, ih (n / 10) (by omega),
        digitChar_toNat (n % 10) (Nat.mod_lt _ (by omega))]
      omega

theorem digitsVal_natDigits (n : Nat) : digitsVal (natDigits n) = n :=
  natDigitsAux_val (n + 1) n (by omega)

/-- Take the maximal leading run of digit characters. -/
def takeDigits : List Char → List Char × List Char
  | [] => ([], [])
  | c :: t =>
    if isDigitChar c then
      let p := takeDigits t
      (c :: p.1, p.2)
    else ([], c :: t)

/-- The first character of `cs` (if any) is not a digit. -/
def GoodFollow (cs : List Char) : Prop :=
  match cs with
  | [] => True
  | c :: _ => isDigitChar c = false

theorem takeDigits_append (ds rest : List Char) (hds : ∀ c ∈ ds, isDigitChar c = true)
    (hrest : GoodFollow rest) : takeDigits (ds ++ rest) = (ds, rest) := by
  induction ds with
  | nil =>
    simp only [List.nil_append]
    cases rest with
    | nil => rfl
    | cons c t =>
      simp only [GoodFollow] at hrest
      simp [takeDigits, hrest]
  | cons c t ih =>
    have hc : isDigitChar c = true := hds c (List.mem_cons_self ..)
    simp only [List.cons_append, takeDigits, hc, if_pos, List.append_eq]
    rw [ih (fun x hx => hds x (List.mem_cons_of_mem _ hx))]

/-! ### String escaping, as `json.dumps` / `json.loads` treat it -/

/-- Escape one character for a JSON string literal (the escapes `json.dumps`
emits for the characters our value universe uses; other characters pass
through verbatim). -/
def escapeChar (c : Char) : List Char :=
  if c = '"' then ['\\', '"']
  else if c = '\\' then ['\\', '\\']
  else if c = '\n' then ['\\', 'n']
  else if c = '\t' then ['\\', 't']
  else if c = '\r' then ['\\', 'r']
  else [c]

def escapeChars : List Char → List Char
  | [] => []
  | c :: t => escapeChar c ++ escapeChars t

/-- Unescape one character after a backslash in a JSON string literal. -/
def unescapeChar (c : Char) : Option Char :=
  if c = '"' then some '"'
  else if c = '\\' then some '\\'
  else if c = 'n' then some '\n'
  else if c = 't' then some '\t'
  else if c = 'r' then some '\r'
  else none

/-- Parse the body of a JSON string literal (after the opening quote), up to
and including the closing quote; returns the unescaped characters and the
remaining input. -/
def parseStringBody : List Char → Option (List Char × List Char)
  | [] => none
  | c :: rest =>
    if c = '"' then some ([], rest)
    else if c = '\\' then
      match rest with
      | [] => none
      | e :: rest2 =>
        match unescapeChar e, parseStringBody rest2 with
        | some c2, some (s, r) => some (c2 :: s, r)
        | _, _ => none
    else
      match parseStringBody rest with
      | some (s, r) => some (c :: s, r)
      | none => none

theorem parseStringBody_quote (rest : List Char) :
    parseStringBody ('"' :: rest) = some ([], rest) := by
  unfold parseStringBody
  simp

theorem parseStringBody_backslash (e : Char) (rest : List Char) :
    parseStringBody ('\\' :: e :: rest) =
      match unescapeChar e, parseStringBody rest with
      | some c2, some (s, r) => some (c2 :: s, r)
      | _, _ => none := by
  conv_lhs => unfold parseStringBody
  simp

theorem parseStringBody_other (c : Char) (rest : List Char) (h1 : c ≠ '"') (h2 : c ≠ '\\') :
    parseStringBody (c :: rest) =
      match parseStringBody rest with
      | some (s, r) => some (c :: s, r)
      | none => none := by
  conv_lhs => unfold parseStringBody
  simp [h1, h2]

theorem parseStringBody_escape (cs rest : List Char) :
    parseStringBody (escapeChars cs ++ ('"' :: rest)) = some (cs, rest) := by
  induction cs with
  | nil =>
    simp only [escapeChars, List.nil_append]
    exact parseStringBody_quote rest
  | cons c t ih =>
    simp only [escapeChars, List.append_assoc]
    by_cases h1 : c = '"'
    · subst h1
      simp [escapeChar, parseStringBody_backslash, unescapeChar, ih]
    · by_cases h2 : c = '\\'
      · subst h2
        simp [escapeChar, parseStringBody_backslash, unescapeChar, ih]
      · by_cases h3 : c = '\n'
        · subst h3
          simp [escapeChar, parseStringBody_backslash, unescapeChar, ih]
        · by_cases h4 : c = '\t'
          · subst h4
            simp [escapeChar, parseStringBody_backslash, unescapeChar, ih]
          · by_cases h5 : c = '\r'
            · subst h5
              simp [escapeChar, parseStringBody_backslash, unescapeChar, ih]
            · simp [escapeChar, h1, h2, h3, h4, h5, parseStringBody_other, ih]

/-! ### The interchange format: model of `json.dumps` -/

/-- Python's `str()` of a dict key, as `json.dumps` stringifies keys. -/
def keyName : JKey → String
  | .kstr s => s
  | .kint n => String.mk (intChars n)

/-- Characters `json.dumps` emits for one dict key (always a quoted string:
integer keys are stringified). -/
def encodeKey (k : JKey) : List Char :=
  match k with
  | .kstr s => '"' :: (escapeChars s.data ++ ['"'])
  | .kint n => '"' :: (escapeChars (intChars n) ++ ['"'])

mutual
/-- Characters of `json.dumps(v)` with the default separators `", "` and
`": "`. -/
def encodeVal : PyVal → List Char
  | .vstr s => '"' :: (escapeChars s.data ++ ['"'])
  | .vint n => intChars n
  | .vbool true => ['t', 'r', 'u', 'e']
  | .vbool false => ['f', 'a', 'l', 's', 'e']
  | .vnone => ['n', 'u', 'l', 'l']
  | .vlist xs => '[' :: (encodeItems xs ++ [']'])
  | .vdict es => '\x7b' :: (encodeEntries es ++ ['\x7d'])

def encodeItems : List PyVal → List Char
  | [] => []
  | [x] => encodeVal x
  | x :: y :: t => encodeVal x ++ (',' :: ' ' :: encodeItems (y :: t))

def encodeEntries : List (JKey × PyVal) → List Char
  | [] => []
  | [(k, v)] => encodeKey k ++ (':' :: ' ' :: encodeVal v)
  | (k, v) :: e :: t =>
    encodeKey k ++ (':' :: ' ' :: encodeVal v) ++ (',' :: ' ' :: encodeEntries (e :: t))
end

/-- Model of Python `json.dumps` restricted to the value universe `PyVal`. -/
def dumps (v : PyVal) : String := String.mk (encodeVal v)

/-! ### Model of `json.loads` (fuel-indexed recursive descent) -/

mutual
/-- Parse one JSON value.  Accepts exactly the format `dumps` emits
(strings, integers, booleans, null, arrays, objects with the default
separators); other inputs are invalid, as for `json.loads` restricted to
this universe. -/
def parseVal : Nat → List Char → Option (PyVal × List Char)
  | 0, _ => none
  | fuel + 1, cs =>
    match cs with
    | [] => none
    | c :: rest =>
      if c = '"' then
        match parseStringBody rest with
        | some (s, r) => some (.vstr (String.mk s), r)
        | none => none
      else if c = '[' then
        match rest with
        | [] => none
        | r0 :: rtail =>
          if r0 = ']' then some (.vlist [], rtail)
          else
            match parseItems fuel (r0 :: rtail) with
            | some (vs, r) => some (.vlist vs, r)
            | none => none
      else if c = '\x7b' then
        match rest with
        | [] => none
        | r0 :: rtail =>
          if r0 = '\x7d' then some (.vdict [], rtail)
          else
            match parseEntries fuel (r0 :: rtail) with
            | some (es, r) => some (.vdict es, r)
            | none => none
      else if c = '-' then
        match takeDigits rest with
        | ([], _) => none
        | (ds, r) => some (.vint (-(digitsVal ds : Int)), r)
      else if isDigitChar c then
        let p := takeDigits rest
        some (.vint ((digitsVal (c :: p.1) : Int)), p.2)
      else if c = 't' then
        match rest with
        | 'r' :: 'u' :: 'e' :: r => some (.vbool true, r)
        | _ => none
      else if c = 'f' then
        match rest with
        | 'a' :: 'l' :: 's' :: 'e' :: r => some (.vbool false, r)
        | _ => none
      else if c = 'n' then
        match rest with
        | 'u' :: 'l' :: 'l' :: r => some (.vnone, r)
        | _ => none
      else none

/-- Parse the items of a non-empty JSON array, consuming the closing `]`. -/
def parseItems : Nat → List Char → Option (List PyVal × List Char)
  | 0, _ => none
  | fuel + 1, cs =>
    match parseVal fuel cs with
    | none => none
    | some (v, r1) =>
      match r1 with
      | ',' :: ' ' :: r2 =>
        match parseItems fuel r2 with
        | none => none
        | some (vs, r3) => some (v :: vs, r3)
      | ']' :: r2 => some ([v], r2)
      | _ => none

/-- Parse the entries of a non-empty JSON object, consuming the closing
brace. -/
def parseEntries : Nat → List Char → Option (List (JKey × PyVal) × List Char)
  | 0, _ => none
  | fuel + 1, cs =>
    match cs with
    | '"' :: rest =>
      match parseStringBody rest with
      | none => none
      | some (kcs, r1) =>
        match r1 with
        | ':' :: ' ' :: r2 =>
          match parseVal fuel r2 with
          | none => none
          | some (v, r3) =>
            match r3 with
            | ',' :: ' ' :: r4 =>
              match parseEntries fuel r4 with
              | none => none
              | some (es, r5) => some ((JKey.kstr (String.mk kcs), v) :: es, r5)
            | '\x7d' :: r4 => some ([(JKey.kstr (String.mk kcs), v)], r4)
            | _ => none
        | _ => none
    | _ => none
end

/-- Model of Python `json.loads` restricted to the value universe `PyVal`:
`none` means the string is not valid JSON (a `JSONDecodeError`). -/
def loads (s : String) : Option PyVal :=
  match parseVal (s.data.length + 1) s.data with
  | some (v, []) => some v
  | _ => none

/-! ### Key normalization and fuel accounting for the round trip -/

mutual
/-- The value `json.loads(json.dumps(v))` recovers: identical to `v` except
that every dict key is stringified. -/
def normKeys : PyVal → PyVal
  | .vstr s => .vstr s
  | .vint n => .vint n
  | .vbool b => .vbool b
  | .vnone => .vnone
  | .vlist xs => .vlist (normKeysList xs)
  | .vdict es => .vdict (normKeysEntries es)

def normKeysList : List PyVal → List PyVal
  | [] => []
  | x :: t => normKeys x :: normKeysList t

def normKeysEntries : List (JKey × PyVal) → List (JKey × PyVal)
  | [] => []
  | (k, v) :: t => (.kstr (keyName k), normKeys v) :: normKeysEntries t
end

/-- Is this dict key a string? -/
def isStrKey : JKey → Bool
  | .kstr _ => true
  | .kint _ => false

mutual
/-- All dict keys of `v`, at every nesting depth, are strings. -/
def stringKeyed : PyVal → Bool
  | .vlist xs => stringKeyedList xs
  | .vdict es => stringKeyedEntries es
  | _ => true

def stringKeyedList : List PyVal → Bool
  | [] => true
  | x :: t => stringKeyed x && stringKeyedList t

def stringKeyedEntries : List (JKey × PyVal) → Bool
  | [] => true
  | (k, v) :: t => isStrKey k && stringKeyed v && stringKeyedEntries t
end

mutual
theorem normKeys_stringKeyed : ∀ v : PyVal, stringKeyed v = true → normKeys v = v
  | .vstr _, _ => rfl
  | .vint _, _ => rfl
  | .vbool _, _ => rfl
  | .vnone, _ => rfl
  | .vlist xs, h => by
      rw [normKeys, normKeysList_stringKeyed xs (by simpa [stringKeyed] using h)]
  | .vdict es, h => by
      rw [normKeys, normKeysEntries_stringKeyed es (by simpa [stringKeyed] using h)]
termination_by v => sizeOf v

theorem normKeysList_stringKeyed :
    ∀ xs : List PyVal, stringKeyedList xs = true → normKeysList xs = xs
  | [], _ => rfl
  | x :: t, h => by
      rw [stringKeyedList, Bool.and_eq_true] at h
      rw [normKeysList, normKeys_stringKeyed x h.1, normKeysList_stringKeyed t h.2]
termination_by xs => sizeOf xs

theorem normKeysEntries_stringKeyed :
    ∀ es : List (JKey × PyVal), stringKeyedEntries es = true → normKeysEntries es = es
  | [], _ => rfl
  | (k, v) :: t, h => by
      rw [stringKeyedEntries, Bool.and_eq_true, Bool.and_eq_true] at h
      obtain ⟨⟨hk, hv⟩, ht⟩ := h
      rw [normKeysEntries, normKeys_stringKeyed v hv, normKeysEntries_stringKeyed t ht]
      cases k with
      | kstr s => rfl
      | kint n => simp [isStrKey] at hk
termination_by es => sizeOf es
end

mutual
/-- Fuel needed to parse the encoding of a value. -/
def pvSize : PyVal → Nat
  | .vlist xs => 1 + pvSizeItems xs
  | .vdict es => 1 + pvSizeEntries es
  | _ => 1

def pvSizeItems : List PyVal → Nat
  | [] => 0
  | x :: t => 1 + pvSize x + pvSizeItems t

def pvSizeEntries : List (JKey × PyVal) → Nat
  | [] => 0
  | (_, v) :: t => 1 + pvSize v + pvSizeEntries t
end

theorem pvSize_pos (v : PyVal) : 1 ≤ pvSize v := by
  cases v <;> simp [pvSize]

mutual
theorem pvSize_le_length : ∀ v : PyVal, pvSize v ≤ (encodeVal v).length + 1
  | .vstr s => by simp [pvSize, encodeVal]
  | .vint n => by simp [pvSize, encodeVal]
  | .vbool b => by cases b <;> simp [pvSize, encodeVal]
  | .vnone => by simp [pvSize, encodeVal]
  | .vlist xs => by
      have h := pvSizeItems_le_length xs
      simp only [pvSize, encodeVal, List.length_cons, List.length_append, List.length_singleton]
      omega
  | .vdict es => by
      have h := pvSizeEntries_le_length es
      simp only [pvSize, encodeVal, List.length_cons, List.length_append, List.length_singleton]
      omega
termination_by v => sizeOf v

theorem pvSizeItems_le_length :
    ∀ xs : List PyVal, pvSizeItems xs ≤ (encodeItems xs).length + 2
  | [] => by simp [pvSizeItems, encodeItems]
  | [x] => by
      have h := pvSize_le_length x
      simp only [pvSizeItems, encodeItems]
      omega
  | x :: y :: t => by
      have h1 := pvSize_le_length x
      have h2 := pvSizeItems_le_length (y :: t)
      simp only [pvSizeItems, encodeItems, List.length_append, List.length_cons] at h2 ⊢
      omega
termination_by xs => sizeOf xs

theorem pvSizeEntries_le_length :
    ∀ es : List (JKey × PyVal), pvSizeEntries es ≤ (encodeEntries es).length + 2
  | [] => by simp [pvSizeEntries, encodeEntries]
  | [(k, v)] => by
      have h := pvSize_le_length v
      simp only [pvSizeEntries, encodeEntries, List.length_append, List.length_cons]
      omega
  | (k, v) :: e :: t => by
      have h1 := pvSize_le_length v
      have h2 := pvSizeEntries_le_length (e :: t)
      simp only [pvSizeEntries, encodeEntries, List.length_append, List.length_cons] at h2 ⊢
      omega
termination_by es => sizeOf es
end

theorem string_mk_data (s : String) : String.mk s.data = s := rfl

theorem goodFollow_of (c : Char) (l : List Char) (h : isDigitChar c = false) :
    GoodFollow (c :: l) := h

theorem isDigitChar_ne_special (c : Char) (h : isDigitChar c = true) :
    c ≠ '"' ∧ c ≠ '[' ∧ c ≠ ']' ∧ c ≠ '\x7b' ∧ c ≠ '\x7d' ∧ c ≠ '-' ∧ c ≠ 't' ∧ c ≠ 'f' ∧
      c ≠ 'n' := by
  refine ⟨?_, ?_, ?_, ?_, ?_, ?_, ?_, ?_, ?_⟩ <;>
    (intro he; subst he; exact absurd h (by decide))

theorem encodeKey_eq (k : JKey) :
    encodeKey k = '"' :: (escapeChars (keyName k).data ++ ['"']) := by
  cases k <;> rfl

theorem encodeVal_head (v : PyVal) :
    ∃ c cs2, encodeVal v = c :: cs2 ∧ c ≠ ']' ∧ c ≠ '\x7d' := by
  cases v with
  | vstr s => exact ⟨'"', _, rfl, by decide, by decide⟩
  | vint n =>
    show ∃ c cs2, intChars n = c :: cs2 ∧ c ≠ ']' ∧ c ≠ '\x7d'
    rw [intChars]
    by_cases hn : n < 0
    · exact ⟨'-', _, by rw [if_pos hn], by decide, by decide⟩
    · rw [if_neg hn]
      cases hnd : natDigits n.toNat with
      | nil => exact absurd hnd (natDigits_ne_nil _)
      | cons d ds =>
        have hd : isDigitChar d = true :=
          natDigits_digits n.toNat d (by rw [hnd]; exact List.mem_cons_self ..)
        obtain ⟨_, _, h3, _, h5, _⟩ := isDigitChar_ne_special d hd
        exact ⟨d, ds, rfl, h3, h5⟩
  | vbool b => cases b <;> exact ⟨_, _, rfl, by decide, by decide⟩
  | vnone => exact ⟨'n', _, rfl, by decide, by decide⟩
  | vlist xs => exact ⟨'[', _, rfl, by decide, by decide⟩
  | vdict es => exact ⟨'\x7b', _, rfl, by decide, by decide⟩

theorem encodeItems_head (x : PyVal) (t : List PyVal) :
    ∃ c cs2, encodeItems (x :: t) = c :: cs2 ∧ c ≠ ']' ∧ c ≠ '\x7d' := by
  obtain ⟨c, cs2, hv, h1, h2⟩ := encodeVal_head x
  cases t with
  | nil => exact ⟨c, cs2, by rw [encodeItems, hv], h1, h2⟩
  | cons y t2 =>
    exact ⟨c, cs2 ++ (',' :: ' ' :: encodeItems (y :: t2)), by rw [encodeItems, hv]; rfl, h1, h2⟩

theorem encodeEntries_head (e : JKey × PyVal) (t : List (JKey × PyVal)) :
    ∃ cs2, encodeEntries (e :: t) = '"' :: cs2 := by
  obtain ⟨k, v⟩ := e
  cases t with
  | nil => exact ⟨_, by rw [encodeEntries, encodeKey_eq]; rfl⟩
  | cons e2 t2 => exact ⟨_, by rw [encodeEntries, encodeKey_eq]; rfl⟩

/-- Correctness of the `json.loads` model on the output of the `json.dumps`
model: one fuel-indexed induction covering values, array items and object
entries. -/
theorem parse_encode : ∀ fuel : Nat,
    (∀ v rest, pvSize v ≤ fuel → GoodFollow rest →
      parseVal fuel (encodeVal v ++ rest) = some (normKeys v, rest)) ∧
    (∀ x t rest, pvSizeItems (x :: t) ≤ fuel →
      parseItems fuel (encodeItems (x :: t) ++ (']' :: rest)) =
        some (normKeysList (x :: t), rest)) ∧
    (∀ e t rest, pvSizeEntries (e :: t) ≤ fuel →
      parseEntries fuel (encodeEntries (e :: t) ++ ('\x7d' :: rest)) =
        some (normKeysEntries (e :: t), rest)) := by
  intro fuel
  induction fuel with
  | zero =>
    refine ⟨?_, ?_, ?_⟩
    · intro v rest hs _
      exact absurd hs (by have := pvSize_pos v; omega)
    · intro x t rest hs
      rw [pvSizeItems] at hs
      omega
    · intro e t rest hs
      obtain ⟨k, v⟩ := e
      rw [pvSizeEntries] at hs
      omega
  | succ f ih =>
    obtain ⟨ihv, ihl, ihe⟩ := ih
    refine ⟨?_, ?_, ?_⟩
    · -- values
      intro v rest hs hgf
      cases v with
      | vstr s =>
        rw [encodeVal, normKeys]
        simp only [List.cons_append, List.append_assoc, List.singleton_append, List.nil_append]
        simp only [parseVal, reduceIte]
        rw [parseStringBody_escape s.data rest]
      | vint n =>
        rw [encodeVal, normKeys, intChars]
        by_cases hn : n < 0
        · rw [if_pos hn]
          simp only [List.cons_append]
          simp only [parseVal, reduceIte]
          rw [takeDigits_append _ _ (natDigits_digits _) hgf]
          cases hnd : natDigits n.natAbs with
          | nil => exact absurd hnd (natDigits_ne_nil _)
          | cons d ds =>
            have hval : digitsVal (d :: ds) = n.natAbs := by
              rw [← hnd, digitsVal_natDigits]
            rw [if_neg (by decide : ¬('-' : Char) = '"'), if_neg (by decide : ¬('-' : Char) = '['),
              if_neg (by decide : ¬('-' : Char) = '\x7b')]
            show some (PyVal.vint (-(digitsVal (d :: ds) : Int)), rest) =
              some (PyVal.vint n, rest)
            rw [hval]
            have hneg : -((n.natAbs : Nat) : Int) = n := by omega
            rw [hneg]
        · rw [if_neg hn]
          cases hnd : natDigits n.toNat with
          | nil => exact absurd hnd (natDigits_ne_nil _)
          | cons d ds =>
            have hd : isDigitChar d = true :=
              natDigits_digits n.toNat d (by rw [hnd]; exact List.mem_cons_self ..)
            obtain ⟨hq, hlb, _, hob, _, hm, ht, hf, hn2⟩ := isDigitChar_ne_special d hd
            simp only [List.cons_append]
            simp only [parseVal]
            rw [if_neg hq, if_neg hlb, if_neg hob, if_neg hm, if_pos hd]
            have hds : ∀ c ∈ ds, isDigitChar c = true := by
              intro c hc
              exact natDigits_digits n.toNat c (by rw [hnd]; exact List.mem_cons_of_mem _ hc)
            rw [takeDigits_append ds rest hds hgf]
            have hval : digitsVal (d :: ds) = n.toNat := by
              rw [← hnd, digitsVal_natDigits]
            simp only [hval]
            have hnn : ((n.toNat : Nat) : Int) = n := by omega
            rw [hnn]
      | vbool b =>
        cases b <;>
          (rw [encodeVal, normKeys]
           simp only [List.cons_append, List.nil_append]
           simp [parseVal, show isDigitChar 't' = false from by decide,
             show isDigitChar 'f' = false from by decide])
      | vnone =>
        rw [encodeVal, normKeys]
        simp only [List.cons_append, List.nil_append]
        simp [parseVal, show isDigitChar 'n' = false from by decide]
      | vlist xs =>
        cases xs with
        | nil =>
          rw [encodeVal, normKeys, normKeysList, encodeItems]
          simp only [List.cons_append, List.nil_append]
          simp [parseVal]
        | cons x t =>
          rw [encodeVal, normKeys]
          obtain ⟨c0, cs0, hI, hne, _⟩ := encodeItems_head x t
          rw [pvSize] at hs
          have hsl : pvSizeItems (x :: t) ≤ f := by omega
          have hitems := ihl x t rest hsl
          simp only [List.cons_append, List.append_assoc, List.singleton_append, List.nil_append]
          simp only [parseVal, reduceIte]
          rw [hI]
          simp only [List.cons_append]
          rw [if_neg hne, ← List.cons_append, ← hI]
          rw [if_neg (by decide : ¬('[' : Char) = '"'), hitems]
      | vdict es =>
        cases es with
        | nil =>
          rw [encodeVal, normKeys, normKeysEntries, encodeEntries]
          simp only [List.cons_append, List.nil_append]
          simp [parseVal]
        | cons e t =>
          rw [encodeVal, normKeys]
          obtain ⟨cs0, hE⟩ := encodeEntries_head e t
          rw [pvSize] at hs
          have hse : pvSizeEntries (e :: t) ≤ f := by omega
          have hentries := ihe e t rest hse
          simp only [List.cons_append, List.append_assoc, List.singleton_append, List.nil_append]
          simp only [parseVal, reduceIte]
          rw [hE]
          simp only [List.cons_append]
          rw [if_neg (by decide : ¬('"' : Char) = '\x7d'), ← List.cons_append, ← hE]
          rw [if_neg (by decide : ¬('\x7b' : Char) = '"'),
            if_neg (by decide : ¬('\x7b' : Char) = '['), hentries]
    · -- array items
      intro x t rest hs
      cases t with
      | nil =>
        rw [pvSizeItems] at hs
        rw [encodeItems, normKeysList, normKeysList]
        have hx := ihv x (']' :: rest) (by have := pvSize_pos x; omega)
          (goodFollow_of ']' rest (by decide))
        simp only [parseItems]
        simp [hx]
      | cons y t2 =>
        rw [pvSizeItems] at hs
        have h1 : 1 ≤ pvSizeItems (y :: t2) := by rw [pvSizeItems]; omega
        have hpx := pvSize_pos x
        have hx := ihv x (',' :: ' ' :: (encodeItems (y :: t2) ++ (']' :: rest)))
          (by omega) (goodFollow_of ',' _ (by decide))
        have hrec := ihl y t2 rest (by omega)
        rw [encodeItems, normKeysList]
        simp only [List.append_assoc, List.cons_append, List.nil_append]
        simp only [parseItems]
        simp [hx, hrec]
    · -- object entries
      intro e t rest hs
      obtain ⟨k, v⟩ := e
      cases t with
      | nil =>
        rw [pvSizeEntries] at hs
        rw [encodeEntries, normKeysEntries, normKeysEntries, encodeKey_eq]
        have hv := ihv v ('\x7d' :: rest) (by have := pvSize_pos v; omega)
          (goodFollow_of '\x7d' rest (by decide))
        simp only [List.append_assoc, List.cons_append, List.singleton_append, List.nil_append]
        simp only [parseEntries]
        rw [parseStringBody_escape]
        simp [hv, string_mk_data]
      | cons e2 t2 =>
        rw [pvSizeEntries] at hs
        have h1 : 1 ≤ pvSizeEntries (e2 :: t2) := by
          obtain ⟨k2, v2⟩ := e2
          rw [pvSizeEntries]
          omega
        have hpv := pvSize_pos v
        have hv := ihv v (',' :: ' ' :: (encodeEntries (e2 :: t2) ++ ('\x7d' :: rest)))
          (by omega) (goodFollow_of ',' _ (by decide))
        have hrec := ihe e2 t2 rest (by omega)
        rw [encodeEntries, normKeysEntries, encodeKey_eq]
        simp only [List.append_assoc, List.cons_append, List.singleton_append, List.nil_append]
        simp only [parseEntries]
        rw [parseStringBody_escape]
        simp [hv, hrec, string_mk_data]

/-- `json.loads(json.dumps(v))` succeeds and returns `v` with dict keys
stringified. -/
theorem loads_dumps (v : PyVal) : loads (dumps v) = some (normKeys v) := by
  unfold loads dumps
  have hdata : (String.mk (encodeVal v)).data = encodeVal v := rfl
  rw [hdata]
  have h := (parse_encode ((encodeVal v).length + 1)).1 v []
    (by have := pvSize_le_length v; omega) trivial
  rw [List.append_nil] at h
  rw [h]

/-- On string-keyed values the `json` round trip is the identity. -/
theorem loads_dumps_stringKeyed (v : PyVal) (h : stringKeyed v = true) :
    loads (dumps v) = some v := by
  rw [loads_dumps, normKeys_stringKeyed v h]

/-! ### Embedding of `NEUTable.convert_meta_values_to_json` /
`NEUTable.convert_meta_values_from_json` (`neubase.py` lines 538-552).

`self.meta` is a Python dict; we model it as an association list from key to
`PyVal`.  `convert_meta_values_to_json` copies the dict and serializes every
value whose type is `list` or `dict`; `convert_meta_values_from_json` tries
`json.loads` on every non-`None` value, keeping the value unchanged when
`loads` raises (a bare `except: pass`): on non-string values `json.loads`
raises `TypeError`, on invalid strings `JSONDecodeError` — both swallowed. -/

/-- One value of `convert_meta_values_to_json`: `dumps` it when it is a list
or a dict (`type(meta[value]) in [list,dict]`), else leave unchanged. -/
def convert_value_to_json (v : PyVal) : PyVal :=
  match v with
  | .vlist xs => .vstr (dumps (.vlist xs))
  | .vdict es => .vstr (dumps (.vdict es))
  | _ => v

/-- Embedding of `NEUTable.convert_meta_values_to_json`. -/
def convert_meta_values_to_json (meta : List (String × PyVal)) : List (String × PyVal) :=
  meta.map (fun p => (p.1, convert_value_to_json p.2))

/-- One value of `convert_meta_values_from_json`: skip `None`, try
`json.loads` on strings keeping the string on failure, and leave any other
value unchanged (`json.loads` raises `TypeError` there, swallowed by the
bare `except`). -/
def convert_value_from_json (v : PyVal) : PyVal :=
  match v with
  | .vnone => .vnone
  | .vstr s =>
    match loads s with
    | some w => w
    | none => .vstr s
  | _ => v

/-- Embedding of `NEUTable.convert_meta_values_from_json`. -/
def convert_meta_values_from_json (meta : List (String × PyVal)) : List (String × PyVal) :=
  meta.map (fun p => (p.1, convert_value_from_json p.2))

/-- The per-value condition under which the metadata round trip is the
identity: lists and dicts must be string-keyed at every depth, and a string
value must not itself be valid JSON. -/
def metaRoundTrippable : PyVal → Bool
  | .vstr s => (loads s).isNone
  | .vlist xs => stringKeyedList xs
  | .vdict es => stringKeyedEntries es
  | _ => true

theorem convert_value_roundtrip (v : PyVal) (h : metaRoundTrippable v = true) :
    convert_value_from_json (convert_value_to_json v) = v := by
  cases v with
  | vstr s =>
    rw [metaRoundTrippable, Option.isNone_iff_eq_none] at h
    simp only [convert_value_to_json, convert_value_from_json]
    rw [h]
  | vint n => rfl
  | vbool b => rfl
  | vnone => rfl
  | vlist xs =>
    rw [metaRoundTrippable] at h
    simp only [convert_value_to_json, convert_value_from_json]
    rw [loads_dumps_stringKeyed _ (by rw [stringKeyed]; exact h)]
  | vdict es =>
    rw [metaRoundTrippable] at h
    simp only [convert_value_to_json, convert_value_from_json]
    rw [loads_dumps_stringKeyed _ (by rw [stringKeyed]; exact h)]

/-- C5 (amended): for every metadata record, every list or mapping value
whose mapping keys (at every nesting depth) are strings equals the result of
serializing it with `convert_meta_values_to_json` and then deserializing
with `convert_meta_values_from_json`; and every scalar string value that is
not valid JSON passes through both conversions unchanged.  (The amendment —
restricting mappings to string keys — is forced by
`claim_C5_counterexample`: `json` stringifies non-string keys.) -/
theorem claim_C5_meta_roundtrip (meta : List (String × PyVal))
    (h : ∀ p ∈ meta, metaRoundTrippable p.2 = true) :
    convert_meta_values_from_json (convert_meta_values_to_json meta) = meta := by
  induction meta with
  | nil => rfl
  | cons p t ih =>
    obtain ⟨k, v⟩ := p
    simp only [convert_meta_values_to_json, convert_meta_values_from_json, List.map_cons] at ih ⊢
    rw [convert_value_roundtrip v (h (k, v) (List.mem_cons_self ..)),
      ih (fun q hq => h q (List.mem_cons_of_mem _ hq))]

/-- C5 counterexample: a metadata value that is a mapping with an integer
key — as the repository's own docstring allows for `dtype` ("dictionary with
dtypes referenced by column numbers or column names") — does not survive the
round trip: the key comes back as a string. -/
theorem claim_C5_counterexample :
    convert_meta_values_from_json (convert_meta_values_to_json
        [("dtype", PyVal.vdict [(JKey.kint 0, PyVal.vstr "str")])]) ≠
      [("dtype", PyVal.vdict [(JKey.kint 0, PyVal.vstr "str")])] := by
  decide

/-- C5 witness: a concrete metadata record with a bare string, an integer
list and a string-keyed mapping round-trips unchanged. -/
theorem claim_C5_meta_roundtrip_witness :
    (∀ p ∈ ([("sheet_name", PyVal.vstr "Sheet1"),
        ("skiprows", PyVal.vlist [PyVal.vint 1, PyVal.vint 2]),
        ("dtype", PyVal.vdict [(JKey.kstr "Full Name", PyVal.vstr "str")])] :
        List (String × PyVal)), metaRoundTrippable p.2 = true) ∧
    convert_meta_values_from_json (convert_meta_values_to_json
        [("sheet_name", PyVal.vstr "Sheet1"),
         ("skiprows", PyVal.vlist [PyVal.vint 1, PyVal.vint 2]),
         ("dtype", PyVal.vdict [(JKey.kstr "Full Name", PyVal.vstr "str")])]) =
      [("sheet_name", PyVal.vstr "Sheet1"),
       ("skiprows", PyVal.vlist [PyVal.vint 1, PyVal.vint 2]),
       ("dtype", PyVal.vdict [(JKey.kstr "Full Name", PyVal.vstr "str")])] :=
  ⟨by decide, claim_C5_meta_roundtrip _ (by decide)⟩

/-! ### Embedding of the pandas data structures used by `NEUTable`

A DataFrame is modelled positionally: ordered column names, the names of the
index levels (pandas index names may be `None`), the row labels of the
(single-level) index, the cell grid, and the dtype names that
`create_columns_meta` reads (`self.data.dtypes` per column and
`self.data.index.dtype.name`).  Multi-level index values and exotic dtypes
are outside the modelled scope; every claim below exercises single-level
indexes. -/
structure PandasDF where
  cols : List String
  indexNames : List (Option String)
  indexVals : List PyVal
  rows : List (List PyVal)
  dtypes : List String
  indexDtype : String
deriving DecidableEq, Repr

/-- The per-column metadata DataFrame `self.columns`: indexed by `db_name`
(the row labels), with named attribute columns, each holding one cell per
`db_name` row. -/
structure ColumnsDF where
  dbNames : List String
  attrs : List (String × List PyVal)
deriving DecidableEq, Repr

/-- First-match association lookup (Python dict/DataFrame attribute and
column names are unique). -/
def alookup {α : Type} : List (String × α) → String → Option α
  | [], _ => none
  | (k, v) :: t, key => if k == key then some v else alookup t key

def seqOption {α : Type} : List (Option α) → Option (List α)
  | [] => some []
  | some a :: t => (seqOption t).map (a :: ·)
  | none :: _ => none

/-! ### Embedding of `to_alphanumeric` and the name derivations of
`create_columns_meta` -/

/-- Characters kept by the regex class `[a-zA-Z0-9_ ]` of `to_alphanumeric`. -/
def isKeptChar (c : Char) : Bool :=
  ('a' ≤ c && c ≤ 'z') || ('A' ≤ c && c ≤ 'Z') || ('0' ≤ c && c ≤ '9') || c = '_' || c = ' '

/-- Collapse runs of spaces to a single space: `sub(' +', ' ', ...)`. -/
def collapseSpaces : List Char → List Char
  | [] => []
  | [c] => [c]
  | c1 :: c2 :: t =>
    if c1 = ' ' && c2 = ' ' then collapseSpaces (c2 :: t)
    else c1 :: collapseSpaces (c2 :: t)

/-- Strip leading and trailing spaces (Python `str.strip()`; after the
filter of `to_alphanumeric` the only whitespace character left is the
space). -/
def trimSpaces (cs : List Char) : List Char :=
  ((cs.dropWhile (· = ' ')).reverse.dropWhile (· = ' ')).reverse

/-- Embedding of `to_alphanumeric` (lines 700-702):
`sub(' +',' ', sub(r'[^a-zA-Z0-9_ ]', '', text)).strip()`. -/
def to_alphanumeric (text : String) : String :=
  String.mk (trimSpaces (collapseSpaces (text.data.filter isKeptChar)))

/-- Model of Python `str.lower` (ASCII case mapping; non-ASCII characters
are stripped by `to_alphanumeric` in every use below). -/
def pyLower (s : String) : String := String.mk (s.data.map Char.toLower)

/-- Model of Python `str.upper` (ASCII). -/
def pyUpper (s : String) : String := String.mk (s.data.map Char.toUpper)

def pyTitleAux : List Char → Bool → List Char
  | [], _ => []
  | c :: t, prevAlpha =>
    (if c.isAlpha then (if prevAlpha then c.toLower else c.toUpper) else c) ::
      pyTitleAux t c.isAlpha

/-- Model of Python `str.title` (ASCII): uppercase every letter that follows
a non-letter, lowercase the rest. -/
def pyTitle (s : String) : String := String.mk (pyTitleAux s.data false)

/-- Single-character replacement, modelling `str.replace` with
one-character arguments. -/
def replaceChar (a b : Char) (s : String) : String :=
  String.mk (s.data.map (fun c => if c = a then b else c))

/-- Single-character deletion, modelling `str.replace(c, '')`. -/
def dropChar (a : Char) (s : String) : String :=
  String.mk (s.data.filter (fun c => !(c = a)))

/-- The `db_name` derivation of `create_columns_meta` (line 486):
`to_alphanumeric( name.lower() ).replace(' ','_')`. -/
def dbNameOf (name : String) : String := replaceChar ' ' '_' (to_alphanumeric (pyLower name))

/-- The `mc_name` derivation (line 488):
`to_alphanumeric( name.title() ).replace('_',' ')` over the `db_name`s. -/
def mcNameOf (dbName : String) : String := replaceChar '_' ' ' (to_alphanumeric (pyTitle dbName))

/-- The `mc_tag` derivation (line 490):
`to_alphanumeric( name.upper() ).replace('_','')` over the `db_name`s. -/
def mcTagOf (dbName : String) : String := dropChar '_' (to_alphanumeric (pyUpper dbName))

/-- `list(self.data.index.names) + self.data.columns.tolist()` — the input
names of `create_columns_meta`; an unnamed (`None`) index level makes
`name.lower()` raise `AttributeError`, hence `none`. -/
def inputNamesOf (df : PandasDF) : Option (List String) :=
  (seqOption df.indexNames).map (fun idx => idx ++ df.cols)

/-- Embedding of `NEUTable.create_columns_meta` (lines 480-535): derive the
per-column metadata DataFrame from the data's shape.  `none` when an index
level is unnamed (`None.lower()` raises). -/
def create_columns_meta (df : PandasDF) : Option ColumnsDF :=
  match seqOption df.indexNames with
  | none => none
  | some idxNames =>
    let input_names := idxNames ++ df.cols
    let db_names := input_names.map dbNameOf
    let output_names := input_names
    let mc_names := db_names.map mcNameOf
    let an_names := mc_names
    let mc_tag := db_names.map mcTagOf
    let dtypes := List.replicate df.indexNames.length df.indexDtype ++ df.dtypes
    let mc_dtypes := dtypes.map (fun d => if d == "object" then "text" else "number")
    let output_formats := dtypes.map (fun d =>
      if d.take 5 == "float" then "float"
      else if d.take 3 == "int" then "int"
      else "str")
    let mc_col_nums := List.range input_names.length
    some {
      dbNames := db_names,
      attrs := [
        ("input_name", input_names.map .vstr),
        ("mc_name", mc_names.map .vstr),
        ("an_name", an_names.map .vstr),
        ("dtype", dtypes.map .vstr),
        ("mc_display_order", mc_col_nums.map (fun i => .vint i)),
        ("mc_tag", mc_tag.map .vstr),
        ("mc_dtypes", mc_dtypes.map .vstr),
        ("output_name", output_names.map .vstr),
        ("output_format", output_formats.map .vstr),
        ("output_width", List.replicate input_names.length (.vint 20))] }

/-- C6: the `db_name` derivation in `create_columns_meta` is the pure,
deterministic function `dbNameOf` — lowercase, remove characters other than
alphanumerics, underscore and space, collapse space runs, trim, replace
spaces with underscores — applied to each input column or index name
independently; in particular `"Full Name"` derives `"full_name"` and
`"Score %"` derives `"score"`. -/
theorem claim_C6_db_name_derivation (df : PandasDF) (cm : ColumnsDF)
    (h : create_columns_meta df = some cm) :
    (inputNamesOf df).map (List.map dbNameOf) = some cm.dbNames ∧
    dbNameOf "Full Name" = "full_name" ∧ dbNameOf "Score %" = "score" := by
  refine ⟨?_, by decide, by decide⟩
  rw [create_columns_meta] at h
  rw [inputNamesOf]
  cases hseq : seqOption df.indexNames with
  | none => rw [hseq] at h; exact absurd h (by simp)
  | some idx =>
    rw [hseq] at h
    simp only [Option.some.injEq] at h
    rw [Option.map, Option.map, ← h]

/-- The concrete DataFrame of end-to-end scenario 2: columns
`["Full Name", "Score %"]`, one named index level. -/
def dfScores : PandasDF :=
  { cols := ["Full Name", "Score %"], indexNames := [some "Pupil ID"],
    indexVals := [PyVal.vint 1], rows := [[PyVal.vstr "Ada", PyVal.vint 97]],
    dtypes := ["object", "int64"], indexDtype := "int64" }

/-- The columns metadata `create_columns_meta` derives for `dfScores`. -/
def cmScores : ColumnsDF :=
  { dbNames := ["pupil_id", "full_name", "score"],
    attrs := [
      ("input_name", [PyVal.vstr "Pupil ID", PyVal.vstr "Full Name", PyVal.vstr "Score %"]),
      ("mc_name", [PyVal.vstr "Pupil Id", PyVal.vstr "Full Name", PyVal.vstr "Score"]),
      ("an_name", [PyVal.vstr "Pupil Id", PyVal.vstr "Full Name", PyVal.vstr "Score"]),
      ("dtype", [PyVal.vstr "int64", PyVal.vstr "object", PyVal.vstr "int64"]),
      ("mc_display_order", [PyVal.vint 0, PyVal.vint 1, PyVal.vint 2]),
      ("mc_tag", [PyVal.vstr "PUPILID", PyVal.vstr "FULLNAME", PyVal.vstr "SCORE"]),
      ("mc_dtypes", [PyVal.vstr "number", PyVal.vstr "text", PyVal.vstr "number"]),
      ("output_name", [PyVal.vstr "Pupil ID", PyVal.vstr "Full Name", PyVal.vstr "Score %"]),
      ("output_format", [PyVal.vstr "int", PyVal.vstr "str", PyVal.vstr "int"]),
      ("output_width", [PyVal.vint 20, PyVal.vint 20, PyVal.vint 20])] }

/-- C6 witness: a DataFrame with columns `["Full Name", "Score %"]` and a
named index derives exactly the claimed `db_name`s. -/
theorem claim_C6_db_name_derivation_witness :
    create_columns_meta dfScores = some cmScores ∧
    (inputNamesOf dfScores).map (List.map dbNameOf) = some cmScores.dbNames := by
  constructor
  · decide
  · exact (claim_C6_db_name_derivation dfScores cmScores (by decide)).1

/-! ### Embedding of `NEUTable` state and `rename_data_column_names` -/

/-- The in-memory state of a `NEUTable`: name, data, metadata record,
per-column metadata, the active namespace flag `column_names_group`, and the
optional `meta_file` location. -/
structure TableState where
  name : String
  data : PandasDF
  meta : List (String × PyVal)
  columns : ColumnsDF
  column_names_group : String
  metaFile : Option String
deriving DecidableEq, Repr

/-- Lookup in a Python dict built by successive `name_map[k] = v`
assignments: a later assignment to the same key overwrites an earlier one,
so the search walks later pairs first. -/
def pyDictGet : List (String × String) → String → Option String
  | [], _ => none
  | (k, v) :: rest, key =>
    match pyDictGet rest key with
    | some w => some w
    | none => if k == key then some v else none

/-- The string content of a columns-metadata cell projected by
`row[group]`.  The two namespaces the code renames between (`input_name`
and `db_name`) hold strings; other cell types are outside the modelled
scope. -/
def cellStr : PyVal → String
  | .vstr s => s
  | _ => ""

/-- `row[group]` for every row of `self.columns.reset_index()`, in row
order: the row label for `db_name` (the index), else the named attribute
column.  (In the source a missing attribute raises `KeyError`; the renames
the code performs only use the always-present `input_name`/`db_name`.) -/
def groupValues (c : ColumnsDF) (g : String) : List String :=
  if g == "db_name" then c.dbNames
  else ((alookup c.attrs g).getD []).map cellStr

/-- Embedding of `NEUTable.rename_data_column_names` (lines 443-466): build
`name_map` from the current namespace column to the target one, rename the
data's column labels through it, and rename every index level name that
occurs in the current namespace list; no-op (with a printed notice) when the
target namespace is already active. -/
def rename_data_column_names (t : TableState) (newGroup : String) : TableState :=
  if newGroup == t.column_names_group then t
  else
    let oldList := groupValues t.columns t.column_names_group
    let newList := groupValues t.columns newGroup
    let nameMap := oldList.zip newList
    { t with
      data := { t.data with
        cols := t.data.cols.map (fun c => (pyDictGet nameMap c).getD c),
        indexNames := t.data.indexNames.map (fun o =>
          match o with
          | some n =>
            if n ∈ oldList then some ((pyDictGet nameMap n).getD n) else some n
          | none => none) },
      column_names_group := newGroup }

theorem pyDictGet_none_of_not_mem (ps : List (String × String)) (key : String)
    (h : ∀ p ∈ ps, p.1 ≠ key) : pyDictGet ps key = none := by
  induction ps with
  | nil => rfl
  | cons p rest ih =>
    obtain ⟨k, v⟩ := p
    rw [pyDictGet, ih (fun q hq => h q (List.mem_cons_of_mem _ hq))]
    have hk : k ≠ key := h (k, v) (List.mem_cons_self ..)
    simp [hk]

/-- Looking a member of `as` up in the zip dictionary `as → bs` and looking
the result up in the reverse dictionary `bs → as` returns to the start,
provided both key lists are duplicate-free. -/
theorem pyDictGet_zip (as : List String) :
    ∀ bs : List String, as.Nodup → bs.Nodup → as.length = bs.length →
      ∀ a ∈ as, ∃ b, pyDictGet (as.zip bs) a = some b ∧ b ∈ bs ∧
        pyDictGet (bs.zip as) b = some a := by
  induction as with
  | nil => intro bs _ _ _ a ha; exact absurd ha (List.not_mem_nil a)
  | cons a0 as2 ih =>
    intro bs hndA hndB hlen a ha
    cases bs with
    | nil => simp at hlen
    | cons b0 bs2 =>
      rw [List.nodup_cons] at hndA hndB
      rw [List.length_cons, List.length_cons, Nat.add_right_cancel_iff] at hlen
      rcases List.mem_cons.mp ha with rfl | ha2
      · refine ⟨b0, ?_, List.mem_cons_self .., ?_⟩
        · rw [List.zip_cons_cons, pyDictGet,
            pyDictGet_none_of_not_mem (as2.zip bs2) a
              (fun p hp => fun he => hndA.1 (he ▸ (List.of_mem_zip hp).1))]
          simp
        · rw [List.zip_cons_cons, pyDictGet,
            pyDictGet_none_of_not_mem (bs2.zip as2) b0
              (fun p hp => fun he => hndB.1 (he ▸ (List.of_mem_zip hp).1))]
          simp
      · obtain ⟨b, hf, hb, hr⟩ := ih bs2 hndA.2 hndB.2 hlen a ha2
        refine ⟨b, ?_, List.mem_cons_of_mem _ hb, ?_⟩
        · rw [List.zip_cons_cons, pyDictGet, hf]
        · rw [List.zip_cons_cons, pyDictGet, hr]

theorem roundtrip_name (ins dbs : List String) (hndI : ins.Nodup) (hndD : dbs.Nodup)
    (hlen : ins.length = dbs.length) (c : String) (hc : c ∈ ins) :
    (pyDictGet (ins.zip dbs) c).getD c ∈ dbs ∧
    (pyDictGet (dbs.zip ins) ((pyDictGet (ins.zip dbs) c).getD c)).getD
      ((pyDictGet (ins.zip dbs) c).getD c) = c := by
  obtain ⟨b, hf, hb, hr⟩ := pyDictGet_zip ins dbs hndI hndD hlen c hc
  rw [hf]
  simp only [Option.getD_some]
  exact ⟨hb, by rw [hr]; rfl⟩

/-- Pointwise-identity maps are the identity. -/
theorem map_mem_id {α : Type} (l : List α) (f : α → α) (h : ∀ a ∈ l, f a = a) :
    l.map f = l := by
  induction l with
  | nil => rfl
  | cons a t ih =>
    rw [List.map_cons, h a (List.mem_cons_self ..),
      ih (fun x hx => h x (List.mem_cons_of_mem _ hx))]

/-- Field-level description of one effective `rename_data_column_names`
step (target namespace differs from the active one). -/
theorem rename_fields (t : TableState) (g2 : String)
    (hne : (g2 == t.column_names_group) = false) :
    (rename_data_column_names t g2).data.cols =
        t.data.cols.map (fun c =>
          (pyDictGet ((groupValues t.columns t.column_names_group).zip
            (groupValues t.columns g2)) c).getD c) ∧
    (rename_data_column_names t g2).data.indexNames =
        t.data.indexNames.map (fun o =>
          match o with
          | some n =>
            if n ∈ groupValues t.columns t.column_names_group then
              some ((pyDictGet ((groupValues t.columns t.column_names_group).zip
                (groupValues t.columns g2)) n).getD n)
            else some n
          | none => none) ∧
    (rename_data_column_names t g2).column_names_group = g2 ∧
    (rename_data_column_names t g2).columns = t.columns := by
  rw [rename_data_column_names, if_neg (by rw [hne]; exact Bool.false_ne_true)]
  exact ⟨rfl, rfl, rfl, rfl⟩

/-- C4: for a table whose data is in the `input_name` namespace and whose
columns metadata gives a duplicate-free mapping between `input_name` and
`db_name` covering the data's column and index names, renaming to `db_name`
and back to `input_name` restores the original column names and index names
exactly (and the namespace flag). -/
theorem claim_C4_namespace_roundtrip (t : TableState) (ins : List String)
    (hgrp : t.column_names_group = "input_name")
    (hattr : alookup t.columns.attrs "input_name" = some (ins.map PyVal.vstr))
    (hlen : ins.length = t.columns.dbNames.length)
    (hndI : ins.Nodup) (hndD : t.columns.dbNames.Nodup)
    (hcols : ∀ c ∈ t.data.cols, c ∈ ins)
    (hidx : ∀ n : String, some n ∈ t.data.indexNames → n ∈ ins) :
    (rename_data_column_names (rename_data_column_names t "db_name") "input_name").data.cols
        = t.data.cols ∧
    (rename_data_column_names (rename_data_column_names t "db_name")
        "input_name").data.indexNames = t.data.indexNames ∧
    (rename_data_column_names (rename_data_column_names t "db_name")
        "input_name").column_names_group = "input_name" := by
  have hold : groupValues t.columns "input_name" = ins := by
    rw [groupValues]
    simp only [show (("input_name" : String) == "db_name") = false from by decide,
      Bool.false_eq_true, if_false, hattr, Option.getD_some, List.map_map]
    have hcomp : cellStr ∘ PyVal.vstr = id := by funext s; rfl
    rw [hcomp, List.map_id]
  have hnew : groupValues t.columns "db_name" = t.columns.dbNames := by
    rw [groupValues]
    simp
  obtain ⟨hc1, hi1, hg1, hcl1⟩ := rename_fields t "db_name" (by rw [hgrp]; decide)
  rw [hgrp, hold, hnew] at hc1 hi1
  obtain ⟨hc2, hi2, hg2, hcl2⟩ :=
    rename_fields (rename_data_column_names t "db_name") "input_name" (by rw [hg1]; decide)
  rw [hg1, hcl1, hold, hnew] at hc2 hi2
  rw [hc1] at hc2
  rw [hi1] at hi2
  refine ⟨?_, ?_, hg2⟩
  · rw [hc2, List.map_map]
    apply map_mem_id
    intro c hc
    simp only [Function.comp_apply]
    exact (roundtrip_name ins t.columns.dbNames hndI hndD hlen c (hcols c hc)).2
  · rw [hi2, List.map_map]
    apply map_mem_id
    intro o ho
    simp only [Function.comp_apply]
    cases o with
    | none => rfl
    | some n =>
      have hn : n ∈ ins := hidx n ho
      obtain ⟨hbmem, hback⟩ := roundtrip_name ins t.columns.dbNames hndI hndD hlen n hn
      simp [hn, hbmem, hback]

/-- The table of end-to-end scenario 2 before persistence: in-memory data in
the `input_name` namespace with metadata derived by `create_columns_meta`. -/
def tScores : TableState :=
  { name := "scores", data := dfScores,
    meta := [("name", PyVal.vstr "scores")],
    columns := cmScores, column_names_group := "input_name", metaFile := none }

/-- C4 witness: the namespace round trip restores the concrete table's
column names and index names exactly. -/
theorem claim_C4_namespace_roundtrip_witness :
    (rename_data_column_names (rename_data_column_names tScores "db_name")
        "input_name").data.cols = tScores.data.cols ∧
    (rename_data_column_names (rename_data_column_names tScores "db_name")
        "input_name").data.indexNames = tScores.data.indexNames ∧
    (rename_data_column_names (rename_data_column_names tScores "db_name")
        "input_name").column_names_group = "input_name" :=
  claim_C4_namespace_roundtrip tScores ["Pupil ID", "Full Name", "Score %"] rfl (by decide)
    (by decide) (by decide) (by decide) (by decide)
    (by
      intro n hn
      simp only [tScores, dfScores, List.mem_singleton, Option.some.injEq] at hn
      subst hn
      decide)

/-! ### Embedding of the SQLite store and `NEUBase` -/

/-- One stored row: an association from column name to cell (SQL rows are
addressed by column name). -/
abbrev Row := List (String × PyVal)

/-- One stored table: ordered column names plus rows. -/
structure DBTable where
  cols : List String
  rows : List Row
deriving DecidableEq, Repr

/-- The SQLite store: named tables in creation order (`sqlite_master`). -/
abbrev SQLiteDB := List (String × DBTable)

def getTable (db : SQLiteDB) (name : String) : Option DBTable := alookup db name

/-- Replace the named table, or append it if absent. -/
def setTable (db : SQLiteDB) (name : String) (tbl : DBTable) : SQLiteDB :=
  match db with
  | [] => [(name, tbl)]
  | (n, t) :: rest => if n == name then (n, tbl) :: rest else (n, t) :: setTable rest name tbl

/-- Embedding of the `sqlite_master` query of `NEUBase.list_tables`
(line 112): the names of all stored tables, giving `table_list_full`. -/
def table_list_full (db : SQLiteDB) : List String := db.map (fun p => p.1)

/-- Embedding of the data-table filter of `NEUBase.list_tables` (line 119):
`[ table for table in self.table_list_full if table!='__meta__' or
table!='__columns__' ]`, exactly as written in the source (the `or` makes
the predicate a tautology). -/
def table_list (db : SQLiteDB) : List String :=
  (table_list_full db).filter (fun t => t != "__meta__" || t != "__columns__")

/-- The empty `__meta__` table `NEUBase.__init__` creates when no initial
metadata is supplied (lines 44-51): index `key` first, then the DataFrame
columns in dict order. -/
def emptyMetaTable : DBTable := { cols := ["key", "table_name", "value"], rows := [] }

/-- The empty `__columns__` table `NEUBase.__init__` creates
(lines 62-80). -/
def emptyColumnsTable : DBTable :=
  { cols := ["db_name", "table_name", "input_name", "mc_name", "an_name", "dtype",
      "mc_display_order", "mc_tag", "mc_dtypes", "output_name", "output_format",
      "output_width"], rows := [] }

/-- Reading catalog-level metadata back (`NEUBase.__init__` lines 38-40):
`read_sql('SELECT * FROM __meta__ WHERE table_name="__db__"', ...,
index_col='key').drop(columns=['table_name']).to_dict()['value']`.  The
`drop` raises when `table_name` is not among the frame's columns, and the
final `['value']` raises `KeyError` when no `value` column remains. -/
def read_db_meta (db : SQLiteDB) : Except String (List (String × PyVal)) :=
  match getTable db "__meta__" with
  | none => .error "no such table: __meta__"
  | some mt =>
    let dfCols := mt.cols.filter (fun c => c != "key")
    if "table_name" ∉ dfCols then .error "KeyError: ['table_name'] not found in axis"
    else if "value" ∉ dfCols then .error "KeyError: 'value'"
    else
      .ok ((mt.rows.filter
          (fun r => alookup r "table_name" == some (.vstr "__db__"))).filterMap
        (fun r =>
          match alookup r "key", alookup r "value" with
          | some (PyVal.vstr k), some v => some (k, v)
          | _, _ => none))

/-- Embedding of `NEUBase.__init__` (lines 19-80), its effect on the store:
create or read the `__meta__` table (seeding it with `table_name='__db__'`
rows when initial metadata is supplied at a fresh path, raising when both a
`__meta__` table and initial metadata are present), then ensure the
`__columns__` table exists.  Path/name bookkeeping has no store effect. -/
def neubase_init (db : SQLiteDB) (meta : Option (List (String × PyVal))) :
    Except String SQLiteDB :=
  let full := table_list_full db
  let step1 : Except String SQLiteDB :=
    if "__meta__" ∈ full then
      match meta with
      | some _ => .error "Meta table already exists"
      | none =>
        match read_db_meta db with
        | .error e => .error e
        | .ok _ => .ok db
    else
      match meta with
      | none => .ok (setTable db "__meta__" emptyMetaTable)
      | some m =>
        .ok (setTable db "__meta__"
          { cols := ["key", "values", "table_name"],
            rows := m.map (fun p => [("key", .vstr p.1), ("values", p.2),
              ("table_name", .vstr "__db__")]) })
  match step1 with
  | .error e => .error e
  | .ok db1 =>
    if "__columns__" ∈ full then .ok db1
    else .ok (setTable db1 "__columns__" emptyColumnsTable)

/-- The store right after constructing a Catalog at a fresh path with no
initial metadata: the two system tables, empty. -/
def dbFresh : SQLiteDB :=
  [("__meta__", emptyMetaTable), ("__columns__", emptyColumnsTable)]

/-- C1 (code bug): `list_tables` does not exclude the system tables.  The
filter `table!='__meta__' or table!='__columns__'` is a tautology (no name
equals both), so `table_list` is the full stored-table list: already after
zero table creations it contains `__meta__` and `__columns__`, and with a
data table stored it is the full list rather than "exactly the stored tables
other than those two". -/
theorem claim_C1_list_tables_includes_system_tables :
    neubase_init [] none = .ok dbFresh ∧
    table_list dbFresh = ["__meta__", "__columns__"] ∧
    "__meta__" ∈ table_list dbFresh ∧ "__columns__" ∈ table_list dbFresh ∧
    table_list (dbFresh ++ [("scores", { cols := ["pupil_id"], rows := [] })]) =
      ["__meta__", "__columns__", "scores"] := by
  refine ⟨rfl, rfl, by decide, by decide, rfl⟩

/-- The store after seeding a fresh Catalog with `{"owner": "x"}`. -/
def dbSeeded : SQLiteDB :=
  [("__meta__",
    { cols := ["key", "values", "table_name"],
      rows := [[("key", PyVal.vstr "owner"), ("values", PyVal.vstr "x"),
        ("table_name", PyVal.vstr "__db__")]] }),
   ("__columns__", emptyColumnsTable)]

/-- C7 (code bug): seeding a fresh Catalog with `{"owner": "x"}` stores
exactly one row tagged `table_name='__db__'` with key `owner` — but the
cell `x` sits in a column named `values`, not `value`: the seeding branch's
schema disagrees with the `value` column used by the empty-creation branch
and by every reader, so re-opening the Catalog at the same path raises a
`KeyError` instead of reporting the row. -/
theorem claim_C7_seed_meta_values_column :
    neubase_init [] (some [("owner", PyVal.vstr "x")]) = .ok dbSeeded ∧
    (getTable dbSeeded "__meta__").map (fun t => t.cols) =
      some ["key", "values", "table_name"] ∧
    (getTable dbSeeded "__meta__").map (fun t => t.rows) =
      some [[("key", PyVal.vstr "owner"), ("values", PyVal.vstr "x"),
        ("table_name", PyVal.vstr "__db__")]] ∧
    (getTable dbSeeded "__meta__").map (fun t => t.cols.contains "value") = some false ∧
    neubase_init dbSeeded none = .error "KeyError: 'value'" := by
  refine ⟨rfl, rfl, rfl, by decide, rfl⟩

/-! ### Embedding of `NEUTable.read_meta_tables` -/

/-- Embedding of `NEUTable.read_meta_tables` (lines 283-288): read the
`__meta__` rows whose `table_name` equals this table's name into the
metadata dict (`convert_meta_values_from_json` applied), then read the
`__columns__` rows for the name, indexed by `db_name` — on which the source
calls `.drop(columns=['table'])`.  No stored `__columns__` table has a
column named `table` (the discriminator is `table_name`), so the drop
raises `KeyError`; the `ok` branch returns what the rest of the code
expects: the filtered rows with the dropped column removed. -/
def read_meta_tables (name : String) (db : SQLiteDB) :
    Except String (List (String × PyVal) × ColumnsDF) :=
  match getTable db "__meta__" with
  | none => .error "no such table: __meta__"
  | some mt =>
    let metaRows := mt.rows.filter (fun r => alookup r "table_name" == some (.vstr name))
    let meta := metaRows.filterMap (fun r =>
      match alookup r "key", alookup r "value" with
      | some (PyVal.vstr k), some v => some (k, v)
      | _, _ => none)
    let meta2 := convert_meta_values_from_json meta
    match getTable db "__columns__" with
    | none => .error "no such table: __columns__"
    | some ct =>
      let colRows := ct.rows.filter (fun r => alookup r "table_name" == some (.vstr name))
      let dfCols := ct.cols.filter (fun c => c != "db_name")
      if "table" ∈ dfCols then
        .ok (meta2,
          { dbNames := colRows.filterMap (fun r => (alookup r "db_name").map cellStr),
            attrs := (dfCols.filter (fun c => c != "table")).map (fun c =>
              (c, colRows.map (fun r => (alookup r c).getD PyVal.vnone))) })
      else .error "KeyError: ['table'] not found in axis"

/-- A store holding one persisted logical table `scores` together with its
system rows, as the persistence path leaves them. -/
def dbStored : SQLiteDB :=
  [("__meta__",
    { cols := ["key", "table_name", "value"],
      rows := [[("key", PyVal.vstr "name"), ("value", PyVal.vstr "scores"),
        ("table_name", PyVal.vstr "scores")]] }),
   ("__columns__",
    { cols := emptyColumnsTable.cols,
      rows := [[("db_name", PyVal.vstr "full_name"), ("input_name", PyVal.vstr "Full Name"),
        ("table_name", PyVal.vstr "scores")]] }),
   ("scores", { cols := ["pupil_id", "full_name"], rows := [] })]

/-- C3 (code bug): rehydrating an existing table fails instead of loading
its metadata.  For a table name listed in the Catalog, `NEUTable.__init__`
(line 202-203) calls `read_meta_tables`, which drops the column `table`
from the `__columns__` row set — but the discriminator column is named
`table_name` and no column `table` exists, so the constructor raises
`KeyError` and neither `meta` nor `columns` is ever produced. -/
theorem claim_C3_rehydration_keyerror :
    "scores" ∈ table_list dbStored ∧
    read_meta_tables "scores" dbStored = .error "KeyError: ['table'] not found in axis" := by
  exact ⟨by decide, rfl⟩

/-! ### Embedding of `test_data_meta_match` and `overwrite_data_table` -/

/-- Lexicographic code-point comparison of character lists (Python string
ordering). -/
def strLt : List Char → List Char → Bool
  | [], [] => false
  | [], _ :: _ => true
  | _ :: _, [] => false
  | a :: as, b :: bs =>
    if a.toNat < b.toNat then true
    else if b.toNat < a.toNat then false
    else strLt as bs

def insertSortedStr (x : String) : List String → List String
  | [] => [x]
  | y :: t => if strLt x.data y.data then x :: y :: t else y :: insertSortedStr x t

/-- Sort a list of strings (Python `sorted` on homogeneous strings). -/
def sortStrings (xs : List String) : List String := xs.foldr insertSortedStr []

def insertSortedInt (x : Int) : List Int → List Int
  | [] => [x]
  | y :: t => if x < y then x :: y :: t else y :: insertSortedInt x t

def sortInts (xs : List Int) : List Int := xs.foldr insertSortedInt []

def asStrings : List PyVal → Option (List String)
  | [] => some []
  | PyVal.vstr s :: t => (asStrings t).map (s :: ·)
  | _ => none

def asInts : List PyVal → Option (List Int)
  | [] => some []
  | PyVal.vint n :: t => (asInts t).map (n :: ·)
  | _ => none

/-- Python `sorted` on a list of cells: defined on homogeneous strings or
integers, `none` (a `TypeError`) on mixed or unorderable content —
e.g. a `None` index name among strings. -/
def pySorted (xs : List PyVal) : Option (List PyVal) :=
  match asStrings xs with
  | some ss => some ((sortStrings ss).map PyVal.vstr)
  | none =>
    match asInts xs with
    | some ns => some ((sortInts ns).map PyVal.vint)
    | none => none

/-- `list(self.data.index.names)` as Python objects (`None` or strings). -/
def indexNamesAsCells (df : PandasDF) : List PyVal :=
  df.indexNames.map (fun o => match o with | some n => PyVal.vstr n | none => PyVal.vnone)

/-- Embedding of `NEUTable.test_data_meta_match` (lines 345-346):
`sorted(self.data.columns.tolist() + list(self.data.index.names)) ==
sorted(self.data.index.tolist())`.  Note the right-hand side: the data's
own row labels (`self.data.index`), not the columns metadata's `db_name`
labels.  `none` models the `TypeError` `sorted` raises on unorderable
content. -/
def test_data_meta_match (t : TableState) : Option Bool :=
  match pySorted (t.data.cols.map PyVal.vstr ++ indexNamesAsCells t.data),
      pySorted t.data.indexVals with
  | some a, some b => some (a == b)
  | _, _ => none

/-- `DataFrame.to_sql` materialization of a data table: the (single-level)
index becomes the first stored column (named `index` when the level is
unnamed), followed by the data columns. -/
def toSqlTable (df : PandasDF) : DBTable :=
  let idxName := ((df.indexNames.head?).getD none).getD "index"
  { cols := idxName :: df.cols,
    rows := (df.indexVals.zip df.rows).map (fun p => (idxName, p.1) :: df.cols.zip p.2) }

/-- Embedding of `NEUTable.overwrite_data_table` (lines 349-359): rename to
`db_name` if that namespace is not active, raise "columns do not match"
when `test_data_meta_match` returns `True`, else write the data table with
`if_exists='replace'`. -/
def overwrite_data_table (t : TableState) (db : SQLiteDB) :
    Except String Unit × SQLiteDB :=
  let t1 := if t.column_names_group != "db_name" then rename_data_column_names t "db_name" else t
  match test_data_meta_match t1 with
  | none => (.error "TypeError: unorderable types in sorted()", db)
  | some true => (.error "The data columns and column meta do not match.", db)
  | some false => (.ok (), setTable db t1.name (toSqlTable t1.data))

/-- A table whose data names do not match its columns metadata: data names
are `a` (index) and `b` (column) but the metadata's `db_name`s are `a` and
`c`. -/
def tMismatch : TableState :=
  { name := "scores",
    data :=
      { cols := ["b"], indexNames := [some "a"], indexVals := [PyVal.vstr "r1"],
        rows := [[PyVal.vstr "v"]], dtypes := ["object"], indexDtype := "object" },
    meta := [],
    columns :=
      { dbNames := ["a", "c"],
        attrs := [("input_name", [PyVal.vstr "A", PyVal.vstr "C"])] },
    column_names_group := "db_name", metaFile := none }

/-- A table whose data names match its columns metadata exactly, but whose
row labels happen to coincide with those names. -/
def tInverted : TableState :=
  { name := "scores",
    data :=
      { cols := ["a"], indexNames := [some "i"],
        indexVals := [PyVal.vstr "a", PyVal.vstr "i"],
        rows := [[PyVal.vstr "v1"], [PyVal.vstr "v2"]],
        dtypes := ["object"], indexDtype := "object" },
    meta := [],
    columns :=
      { dbNames := ["a", "i"],
        attrs := [("input_name", [PyVal.vstr "A", PyVal.vstr "I"])] },
    column_names_group := "db_name", metaFile := none }

/-- C2 (code bug, the §9 inversion): `overwrite_data_table` neither fails
when the data/metadata name sets differ nor succeeds when they agree.  The
guard compares the data's names against the data's own row labels (not the
metadata's `db_name` set) and raises when the comparison is `True`.  On
`tMismatch` the name sets differ (`{a,b}` vs `{a,c}`) — the claim demands
the "columns do not match" error — yet the code writes the table; on
`tInverted` the name sets agree — the claim demands a successful write —
yet the code raises the error. -/
theorem claim_C2_overwrite_guard_inverted :
    sortStrings (tMismatch.data.cols ++ tMismatch.data.indexNames.filterMap id) ≠
      sortStrings tMismatch.columns.dbNames ∧
    test_data_meta_match tMismatch = some false ∧
    overwrite_data_table tMismatch dbFresh =
      (.ok (), setTable dbFresh "scores" (toSqlTable tMismatch.data)) ∧
    sortStrings (tInverted.data.cols ++ tInverted.data.indexNames.filterMap id) =
      sortStrings tInverted.columns.dbNames ∧
    test_data_meta_match tInverted = some true ∧
    (overwrite_data_table tInverted dbFresh).1 =
      .error "The data columns and column meta do not match." := by
  refine ⟨by decide, by decide, rfl, by decide, by decide, rfl⟩

/-! ### Embedding of `NEUTable.update_meta_tables` -/

/-- `create_meta_df` (lines 469-477): the metadata dict as (key, value)
pairs with list/dict values serialized by `convert_meta_values_to_json`
(index `key`, one column `value`). -/
def create_meta_df (meta : List (String × PyVal)) : List (String × PyVal) :=
  convert_meta_values_to_json meta

/-- `.assign(table_name=self.name)` on the columns DataFrame: replace any
existing `table_name` column and set every cell to the table's name. -/
def assign_table_name (c : ColumnsDF) (name : String) : ColumnsDF :=
  { c with
    attrs := c.attrs.filter (fun a => !(a.1 == "table_name")) ++
      [("table_name", List.replicate c.dbNames.length (PyVal.vstr name))] }

/-- Rows of the columns DataFrame as `to_sql(if_exists='append')` writes
them: the `db_name` row label plus the attribute columns. -/
def columnsRows (c : ColumnsDF) : List Row :=
  (List.range c.dbNames.length).map (fun i =>
    ("db_name", PyVal.vstr (c.dbNames.getD i "")) ::
      c.attrs.map (fun a => (a.1, a.2.getD i PyVal.vnone)))

/-- `DELETE FROM tbl WHERE table_name="name"`; an error when the table does
not exist (sqlite raises `OperationalError`). -/
def delete_tagged (db : SQLiteDB) (tbl name : String) : Except String SQLiteDB :=
  match getTable db tbl with
  | none => .error ("no such table: " ++ tbl)
  | some t =>
    .ok (setTable db tbl
      { t with
        rows := t.rows.filter (fun r =>
          !(alookup r "table_name" == some (PyVal.vstr name))) })

/-- Append rows to a stored table (`to_sql(..., if_exists='append')`
creates the table when absent). -/
def append_rows (db : SQLiteDB) (tbl : String) (rows : List Row) : SQLiteDB :=
  match getTable db tbl with
  | none => db ++ [(tbl, { cols := (rows.head?.getD []).map (fun p => p.1), rows := rows })]
  | some t => setTable db tbl { t with rows := t.rows ++ rows }

/-- Embedding of `NEUTable.update_meta_tables` (lines 417-428): purge the
rows of `__meta__` and `__columns__` tagged with this table's name, then
append the current in-memory metadata rows and columns rows, each tagged
with the name. -/
def update_meta_tables (t : TableState) (db : SQLiteDB) : Except String SQLiteDB :=
  match delete_tagged db "__meta__" t.name with
  | .error e => .error e
  | .ok db1 =>
    match delete_tagged db1 "__columns__" t.name with
    | .error e => .error e
    | .ok db2 =>
      let db3 := append_rows db2 "__meta__"
        ((create_meta_df t.meta).map (fun p =>
          [("key", PyVal.vstr p.1), ("value", p.2), ("table_name", PyVal.vstr t.name)]))
      .ok (append_rows db3 "__columns__" (columnsRows (assign_table_name t.columns t.name)))

theorem alookup_append {α : Type} (l1 l2 : List (String × α)) (k : String) :
    alookup (l1 ++ l2) k =
      match alookup l1 k with
      | some v => some v
      | none => alookup l2 k := by
  induction l1 with
  | nil => rfl
  | cons p t ih =>
    obtain ⟨k1, v1⟩ := p
    rw [List.cons_append, alookup, alookup]
    by_cases hk : (k1 == k) = true
    · simp [hk]
    · simp [hk, ih]

theorem alookup_none_of_keys {α : Type} (l : List (String × α)) (k : String)
    (h : ∀ p ∈ l, p.1 ≠ k) : alookup l k = none := by
  induction l with
  | nil => rfl
  | cons p t ih =>
    obtain ⟨k1, v1⟩ := p
    rw [alookup]
    have hk : (k1 == k) = false := by
      rw [beq_eq_false_iff_ne]
      exact h (k1, v1) (List.mem_cons_self ..)
    simp [hk, ih (fun q hq => h q (List.mem_cons_of_mem _ hq))]

theorem getTable_setTable_self (db : SQLiteDB) (n : String) (tbl : DBTable) :
    getTable (setTable db n tbl) n = some tbl := by
  induction db with
  | nil => simp [setTable, getTable, alookup]
  | cons p rest ih =>
    obtain ⟨n1, t1⟩ := p
    rw [setTable]
    by_cases h : (n1 == n) = true
    · rw [if_pos h]
      simp [getTable, alookup, h]
    · rw [if_neg (by simpa using h)]
      simp only [getTable, alookup] at ih ⊢
      simp [h, ih]

theorem getTable_setTable_other (db : SQLiteDB) (n m : String) (tbl : DBTable)
    (h : m ≠ n) : getTable (setTable db n tbl) m = getTable db m := by
  induction db with
  | nil =>
    have hm : (n == m) = false := by
      rw [beq_eq_false_iff_ne]
      exact fun he => h he.symm
    simp [setTable, getTable, alookup, hm]
  | cons p rest ih =>
    obtain ⟨n1, t1⟩ := p
    rw [setTable]
    by_cases h1 : (n1 == n) = true
    · rw [if_pos h1]
      have hn1 : n1 = n := by rwa [beq_iff_eq] at h1
      have hm : (n1 == m) = false := by
        rw [beq_eq_false_iff_ne, hn1]
        exact fun he => h he.symm
      simp [getTable, alookup, hm]
    · rw [if_neg (by simpa using h1)]
      simp only [getTable, alookup] at ih ⊢
      by_cases h2 : (n1 == m) = true
      · simp [h2]
      · simp [h2, ih]

theorem getTable_append_rows_other (db : SQLiteDB) (tbl m : String) (rows : List Row)
    (h : m ≠ tbl) : getTable (append_rows db tbl rows) m = getTable db m := by
  rw [append_rows]
  cases hg : getTable db tbl with
  | none =>
    have hm : (tbl == m) = false := by
      rw [beq_eq_false_iff_ne]
      exact fun he => h he.symm
    rw [getTable, alookup_append]
    cases hq : alookup db m with
    | none => simp [alookup, hm, getTable, hq]
    | some v => simp [getTable, hq]
  | some t0 => exact getTable_setTable_other db tbl m _ h

theorem getTable_append_rows_self (db : SQLiteDB) (tbl : String) (rows : List Row)
    (t0 : DBTable) (h : getTable db tbl = some t0) :
    getTable (append_rows db tbl rows) tbl = some { t0 with rows := t0.rows ++ rows } := by
  rw [append_rows, h]
  exact getTable_setTable_self db tbl _

theorem filter_filter_tag (rows : List Row) (name other : String) (hne : other ≠ name) :
    (rows.filter (fun r => !(alookup r "table_name" == some (PyVal.vstr name)))).filter
      (fun r => alookup r "table_name" == some (PyVal.vstr other)) =
    rows.filter (fun r => alookup r "table_name" == some (PyVal.vstr other)) := by
  induction rows with
  | nil => rfl
  | cons r t ih =>
    by_cases ho : (alookup r "table_name" == some (PyVal.vstr other)) = true
    · have hn : (alookup r "table_name" == some (PyVal.vstr name)) = false := by
        rw [beq_iff_eq] at ho
        rw [ho, beq_eq_false_iff_ne]
        intro hcontra
        apply hne
        simpa using hcontra
      simp [List.filter_cons, ho, hn, ih]
    · by_cases hp : (alookup r "table_name" == some (PyVal.vstr name)) = true
      · simp [List.filter_cons, ho, hp, ih]
      · simp [List.filter_cons, ho, hp, ih]

theorem filter_tag_nil (rows : List Row) (name other : String) (hne : other ≠ name)
    (hall : ∀ r ∈ rows, alookup r "table_name" = some (PyVal.vstr name)) :
    rows.filter (fun r => alookup r "table_name" == some (PyVal.vstr other)) = [] := by
  induction rows with
  | nil => rfl
  | cons r t ih =>
    have h1 := hall r (List.mem_cons_self ..)
    have ho : (alookup r "table_name" == some (PyVal.vstr other)) = false := by
      rw [h1, beq_eq_false_iff_ne]
      intro hc
      apply hne
      simpa using hc.symm
    simp [List.filter_cons, ho, ih (fun q hq => hall q (List.mem_cons_of_mem _ hq))]

theorem getD_replicate_lt {α : Type} (n i : Nat) (a d : α) (h : i < n) :
    (List.replicate n a).getD i d = a := by
  induction n generalizing i with
  | zero => omega
  | succ m ih =>
    cases i with
    | zero => rfl
    | succ j => exact ih j (by omega)

theorem meta_rows_tagged (meta : List (String × PyVal)) (name : String) :
    ∀ r ∈ meta.map (fun p => [("key", PyVal.vstr p.1), ("value", p.2),
        ("table_name", PyVal.vstr name)]),
      alookup r "table_name" = some (PyVal.vstr name) := by
  intro r hr
  obtain ⟨p, _, rfl⟩ := List.mem_map.mp hr
  rfl

theorem columns_rows_tagged (c : ColumnsDF) (name : String) :
    ∀ r ∈ columnsRows (assign_table_name c name),
      alookup r "table_name" = some (PyVal.vstr name) := by
  intro r hr
  rw [columnsRows] at hr
  obtain ⟨i, hi, rfl⟩ := List.mem_map.mp hr
  rw [List.mem_range] at hi
  rw [alookup]
  rw [if_neg (by decide)]
  rw [assign_table_name]
  simp only [List.map_append, List.map_cons, List.map_nil]
  rw [alookup_append]
  rw [alookup_none_of_keys]
  · have hi2 : i < c.dbNames.length := hi
    show some ((List.replicate c.dbNames.length (PyVal.vstr name)).getD i PyVal.vnone) =
      some (PyVal.vstr name)
    rw [getD_replicate_lt _ _ _ _ hi2]
  · intro p hp
    obtain ⟨a, ha, rfl⟩ := List.mem_map.mp hp
    have h2 := (List.mem_filter.mp ha).2
    simpa using h2

/-- The rows of a stored table tagged with a given table name. -/
def tagged_rows (db : SQLiteDB) (tbl other : String) : List Row :=
  ((getTable db tbl).map (fun t => t.rows.filter
    (fun r => alookup r "table_name" == some (PyVal.vstr other)))).getD []

/-- C9: `update_meta_tables` modifies only the rows of `__meta__` and
`__columns__` whose `table_name` equals this table's name (purging them and
appending the in-memory metadata and columns rows tagged with the name);
for every other table name, its rows in both system tables are unchanged. -/
theorem claim_C9_update_meta_tables_frame (t : TableState) (db db2 : SQLiteDB)
    (other : String) (hne : other ≠ t.name)
    (h : update_meta_tables t db = .ok db2) :
    tagged_rows db2 "__meta__" other = tagged_rows db "__meta__" other ∧
    tagged_rows db2 "__columns__" other = tagged_rows db "__columns__" other := by
  rw [update_meta_tables] at h
  split at h
  · exact absurd h (by simp)
  · rename_i db1 hm
    split at h
    · exact absurd h (by simp)
    · rename_i db1c hc
      simp only [Except.ok.injEq] at h
      rw [delete_tagged] at hm hc
      split at hm
      · exact absurd hm (by simp)
      · rename_i mt hgm
        simp only [Except.ok.injEq] at hm
        split at hc
        · exact absurd hc (by simp)
        · rename_i ct hgc
          simp only [Except.ok.injEq] at hc
          subst hm
          subst hc
          subst h
          have hMC : ("__meta__" : String) ≠ "__columns__" := by decide
          have hCM : ("__columns__" : String) ≠ "__meta__" := by decide
          constructor
          · rw [tagged_rows, tagged_rows, hgm]
            rw [getTable_append_rows_other _ _ _ _ hMC]
            rw [getTable_append_rows_self _ _ _ _ (by
              rw [getTable_setTable_other _ _ _ _ hMC]
              exact getTable_setTable_self db _ _)]
            simp only [Option.map_some', Option.getD_some]
            rw [List.filter_append, filter_filter_tag _ _ _ hne,
              filter_tag_nil _ t.name other hne (meta_rows_tagged (create_meta_df t.meta) t.name),
              List.append_nil]
          · rw [tagged_rows, tagged_rows]
            have hgc0 : getTable db "__columns__" = some ct := by
              rwa [getTable_setTable_other db "__meta__" "__columns__" _ hCM] at hgc
            rw [hgc0]
            rw [getTable_append_rows_self _ _ _ _ (by
              rw [getTable_append_rows_other _ _ _ _ hCM]
              exact getTable_setTable_self _ _ _)]
            simp only [Option.map_some', Option.getD_some]
            rw [List.filter_append, filter_filter_tag _ _ _ hne,
              filter_tag_nil _ t.name other hne (columns_rows_tagged t.columns t.name),
              List.append_nil]

/-- A store whose system tables hold rows for another logical table
(`other`), used to exhibit the frame property concretely. -/
def dbOther : SQLiteDB :=
  [("__meta__",
    { cols := ["key", "table_name", "value"],
      rows := [[("key", PyVal.vstr "name"), ("value", PyVal.vstr "other"),
        ("table_name", PyVal.vstr "other")]] }),
   ("__columns__",
    { cols := emptyColumnsTable.cols,
      rows := [[("db_name", PyVal.vstr "x"), ("table_name", PyVal.vstr "other")]] })]

/-- C9 witness: persisting `tScores`'s metadata leaves the rows tagged
`other` in both system tables untouched. -/
theorem claim_C9_update_meta_tables_frame_witness :
    ("other" : String) ≠ tScores.name ∧
    tagged_rows ((update_meta_tables tScores dbOther).toOption.getD []) "__meta__" "other" =
      tagged_rows dbOther "__meta__" "other" ∧
    tagged_rows ((update_meta_tables tScores dbOther).toOption.getD []) "__columns__" "other" =
      tagged_rows dbOther "__columns__" "other" :=
  ⟨by decide,
   (claim_C9_update_meta_tables_frame tScores dbOther _ "other" (by decide) (by rfl)).1,
   (claim_C9_update_meta_tables_frame tScores dbOther _ "other" (by decide) (by rfl)).2⟩

/-! ### Embedding of `create_meta_from_data` and `create_table` -/

/-- Python dict assignment `d[k] = v`: overwrite in place or append. -/
def pyDictSet (d : List (String × PyVal)) (k : String) (v : PyVal) : List (String × PyVal) :=
  if (alookup d k).isSome then d.map (fun p => if p.1 == k then (k, v) else p)
  else d ++ [(k, v)]

/-- Embedding of `NEUTable.create_meta_from_data` (lines 257-268): set the
default `meta_file`, derive the columns metadata from the data, invert the
`input_name` dictionary to translate the data's index names into `db_name`
form (`sql_index`), and fill the bookkeeping keys of `meta`.  (The source
creates `self.meta = {}` when the attribute is absent; the state always
carries a `meta` record here.)  Errors model the `AttributeError` of an
unnamed index level inside `create_columns_meta` and the `KeyError` of an
index name missing from the inverted map. -/
def create_meta_from_data (t : TableState) (fileLocation : String) :
    Except String TableState :=
  let metaFile := "data/" ++ t.name ++ "_meta.xlsx"
  match create_columns_meta t.data with
  | none => .error "AttributeError: lower"
  | some cm =>
    let inputs := ((alookup cm.attrs "input_name").getD []).map cellStr
    let invMap := inputs.zip cm.dbNames
    match seqOption (t.data.indexNames.map (fun o => o.bind (fun n => pyDictGet invMap n))) with
    | none => .error "KeyError: sql_index"
    | some sqlIdx =>
      .ok { t with
        columns := cm, metaFile := some metaFile,
        meta := pyDictSet (pyDictSet (pyDictSet (pyDictSet t.meta
          "name" (PyVal.vstr t.name))
          "db_file" (PyVal.vstr fileLocation))
          "meta_file" (PyVal.vstr metaFile))
          "sql_index" (PyVal.vlist (sqlIdx.map PyVal.vstr)) }

/-- Embedding of `NEUTable.create_table` (lines 206-230) on the in-memory
data path (`self.data` populated; `read_data_from_file`, which ingests an
external spreadsheet/CSV, and `update_meta_file`, which writes an external
workbook, have no store effect and are outside the store model): guard
against an existing name, derive metadata when no metadata source was
given, rename the data to `db_name`, persist the system rows, then the data
table.  The returned store reflects exactly the mutations committed before
any raised error. -/
def create_table (t : TableState) (fileLocation : String) (db : SQLiteDB) :
    Except String TableState × SQLiteDB :=
  if t.name ∈ table_list db then (.error (t.name ++ " already exists."), db)
  else
    match (if t.metaFile.isNone then create_meta_from_data t fileLocation else .ok t) with
    | .error e => (.error e, db)
    | .ok t1 =>
      let t2 := rename_data_column_names t1 "db_name"
      match update_meta_tables t2 db with
      | .error e => (.error e, db)
      | .ok db1 =>
        match overwrite_data_table t2 db1 with
        | (.error e, db2) => (.error e, db2)
        | (.ok _, db2) => (.ok t2, db2)

theorem mem_table_list_of_full (db : SQLiteDB) (x : String)
    (h : x ∈ table_list_full db) : x ∈ table_list db := by
  rw [table_list, List.mem_filter]
  refine ⟨h, ?_⟩
  by_cases hx : x = "__meta__"
  · subst hx
    decide
  · simp [hx]

/-- C8: calling `create_table` on a table whose name is already stored in
the Catalog fails with the "already exists" error before any store
mutation: the store is returned unchanged, so the previously stored data
table and its `__meta__` and `__columns__` rows are all unchanged. -/
theorem claim_C8_create_table_already_exists (t : TableState) (fileLocation : String)
    (db : SQLiteDB) (h : t.name ∈ table_list_full db) :
    create_table t fileLocation db = (.error (t.name ++ " already exists."), db) ∧
    getTable (create_table t fileLocation db).2 t.name = getTable db t.name ∧
    tagged_rows (create_table t fileLocation db).2 "__meta__" t.name =
      tagged_rows db "__meta__" t.name ∧
    tagged_rows (create_table t fileLocation db).2 "__columns__" t.name =
      tagged_rows db "__columns__" t.name := by
  have he : create_table t fileLocation db = (.error (t.name ++ " already exists."), db) := by
    rw [create_table, if_pos (mem_table_list_of_full db t.name h)]
  exact ⟨he, by rw [he], by rw [he], by rw [he]⟩

/-- C8 witness: creating `scores` again over the store that already holds
it fails with "already exists" and leaves the store unchanged. -/
theorem claim_C8_create_table_already_exists_witness :
    create_table tScores "test.db" dbStored =
      (.error ("scores" ++ " already exists."), dbStored) ∧
    getTable (create_table tScores "test.db" dbStored).2 "scores" =
      getTable dbStored "scores" ∧
    tagged_rows (create_table tScores "test.db" dbStored).2 "__meta__" "scores" =
      tagged_rows dbStored "__meta__" "scores" ∧
    tagged_rows (create_table tScores "test.db" dbStored).2 "__columns__" "scores" =
      tagged_rows dbStored "__columns__" "scores" :=
  claim_C8_create_table_already_exists tScores "test.db" dbStored (by decide)

/-! ### Embedding of the entry of `NEUTable.excel_out` -/

